import Mathlib

/-!
Shallow embedding of `src/server.js` (product-team-board).

The server keeps a single in-memory board (`inMemoryData`) holding a task
list and a team-member list, persists it best-effort to a JSON file, and
reacts to WebSocket messages by mutating the board, snapshotting it and
broadcasting an event message to the connected clients.

Modelling choices:
* JS objects for tasks / members carry caller-defined opaque fields; we
  model the fields the server inspects (`id`, `status`, `comments`,
  `name`, `taskId`, `comment`) explicitly and collapse the remaining
  opaque payload into a `rest : String` field.
* A client socket is a `Client` with an identity `cid : Nat` and its
  `readyState === WebSocket.OPEN` test collapsed into `isOpen : Bool`.
* The file system is modelled by `file : Option Board` plus a `writable`
  flag: `fs.writeFileSync` succeeds iff `writable`, and `writeData`
  swallows the failure exactly as the source does (the catch block only
  logs).
* Outbound traffic of one handler invocation is the list of
  `(client id, message)` pairs produced, in send order.
-/

namespace ProductBoard

structure Task where
  id : String
  status : String
  comments : List String
  rest : String
deriving DecidableEq

structure TeamMember where
  name : String
  rest : String
deriving DecidableEq

structure Board where
  tasks : List Task
  teamMembers : List TeamMember
deriving DecidableEq

/-- Payload of a MOVE_TASK message: the server reads `payload.id` and
`payload.status`. -/
structure MovePayload where
  id : String
  status : String
deriving DecidableEq

/-- Payload of a DELETE_TASK message: the server reads only `payload.id`
but rebroadcasts the whole payload. -/
structure DeletePayload where
  id : String
  rest : String
deriving DecidableEq

/-- Payload of an ADD_COMMENT message: the server reads `payload.taskId`
and `payload.comment`. -/
structure CommentPayload where
  taskId : String
  comment : String
deriving DecidableEq

/-- Inbound messages, one constructor per `case` of the switch in
`ws.on('message')`; `unknown` stands for any other `type` tag, for which
the switch has no case. -/
inductive ClientMsg where
  | addTask (p : Task)
  | updateTask (p : Task)
  | deleteTask (p : DeletePayload)
  | moveTask (p : MovePayload)
  | addComment (p : CommentPayload)
  | updateTeamMember (p : TeamMember)
  | userActivity (p : String)
  | unknown (tag : String) (p : String)
deriving DecidableEq

/-- Outbound messages produced by the server. -/
inductive ServerMsg where
  | init (b : Board)
  | taskAdded (p : Task)
  | taskUpdated (p : Task)
  | taskDeleted (p : DeletePayload)
  | taskMoved (p : MovePayload)
  | commentAdded (p : CommentPayload)
  | teamUpdated (ms : List TeamMember)
  | userActivity (p : String)
deriving DecidableEq

structure Client where
  cid : Nat
  isOpen : Bool
deriving DecidableEq

/-- `inMemoryData` together with the on-disk snapshot file. After
`initDataFile()` ran, `inMemoryData` is always non-null, so `mem` is a
plain `Board`. -/
structure ServerState where
  mem : Board
  file : Option Board
deriving DecidableEq

/-- `readData()`: `inMemoryData` is set, so it is returned directly. -/
def readData (st : ServerState) : Board := st.mem

/-- `writeData(data)`: unconditionally installs `data` in memory, then
tries `fs.writeFileSync`; a write failure is caught and only logged. -/
def writeData (writable : Bool) (st : ServerState) (b : Board) : ServerState :=
  { mem := b, file := if writable then some b else st.file }

/-- `broadcast(message, excludeWs)`: sends to every client of
`wss.clients` that is not the excluded one and whose `readyState` is
`OPEN`. -/
def broadcast (clients : List Client) (excl : Option Nat) (m : ServerMsg) :
    List (Nat × ServerMsg) :=
  (clients.filter fun c =>
      (match excl with | none => true | some e => c.cid != e) && c.isOpen).map
    fun c => (c.cid, m)

/-- In-place element update `l[i] = f(l[i])`, as in
`data.tasks[moveIndex].status = ...`. -/
def modifyAt (l : List α) (i : Nat) (f : α → α) : List α :=
  match l[i]? with
  | some a => l.set i (f a)
  | none => l

/-- The UPDATE_TEAM_MEMBER mutation: `findIndex` on `name`, then
`push` if absent (`memberIndex === -1`) else in-place assignment. -/
def upsertMember (l : List TeamMember) (p : TeamMember) : List TeamMember :=
  match l.findIdx? (fun m => m.name == p.name) with
  | none => l ++ [p]
  | some i => l.set i p

/-- The `ws.on('message')` handler: one switch over `msg.type`. Returns
the server state after the call, whether `writeData` was invoked, and
the outbound sends in order (`broadcast` first, then the direct
`ws.send` echo to the sender, as in the source). -/
def handleMessage (writable : Bool) (clients : List Client) (sender : Nat)
    (st : ServerState) (msg : ClientMsg) :
    ServerState × Bool × List (Nat × ServerMsg) :=
  let data := readData st
  match msg with
  | .addTask p =>
    let d := { data with tasks := data.tasks ++ [p] }
    (writeData writable st d, true,
      broadcast clients none (.taskAdded p) ++ [(sender, .taskAdded p)])
  | .updateTask p =>
    match data.tasks.findIdx? (fun t => t.id == p.id) with
    | some i =>
      let d := { data with tasks := data.tasks.set i p }
      (writeData writable st d, true,
        broadcast clients none (.taskUpdated p) ++ [(sender, .taskUpdated p)])
    | none => (st, false, [])
  | .deleteTask p =>
    let d := { data with tasks := data.tasks.filter fun t => t.id != p.id }
    (writeData writable st d, true,
      broadcast clients none (.taskDeleted p) ++ [(sender, .taskDeleted p)])
  | .moveTask p =>
    match data.tasks.findIdx? (fun t => t.id == p.id) with
    | some i =>
      let d := { data with
        tasks := modifyAt data.tasks i fun t => { t with status := p.status } }
      (writeData writable st d, true,
        broadcast clients none (.taskMoved p) ++ [(sender, .taskMoved p)])
    | none => (st, false, [])
  | .addComment p =>
    match data.tasks.findIdx? (fun t => t.id == p.taskId) with
    | some i =>
      let d := { data with
        tasks := modifyAt data.tasks i
          fun t => { t with comments := t.comments ++ [p.comment] } }
      (writeData writable st d, true,
        broadcast clients none (.commentAdded p) ++ [(sender, .commentAdded p)])
    | none => (st, false, [])
  | .updateTeamMember p =>
    let members := upsertMember data.teamMembers p
    let d := { data with teamMembers := members }
    (writeData writable st d, true,
      broadcast clients none (.teamUpdated members) ++ [(sender, .teamUpdated members)])
  | .userActivity p =>
    (st, false, broadcast clients (some sender) (.userActivity p))
  | .unknown _ _ => (st, false, [])

/-- The INIT snapshot the connection handler sends to a freshly
registered client (`wss.on('connection')`). -/
def initMessage (st : ServerState) : ServerMsg := .init (readData st)

/-- Replay a sequence of inbound messages from one connection, keeping
only the evolving server state. -/
def replay (writable : Bool) (clients : List Client) (sender : Nat)
    (st : ServerState) (ms : List ClientMsg) : ServerState :=
  ms.foldl (fun s m => (handleMessage writable clients sender s m).1) st

/-- The spec's task-id uniqueness invariant. -/
def idsNodup (b : Board) : Prop := (b.tasks.map Task.id).Nodup

instance (b : Board) : Decidable (idsNodup b) := by
  unfold idsNodup; infer_instance

/-- Whether the switch case of a message reaches its mutation (the guard
`findIndex !== -1` succeeds, or the case has no guard); USER_ACTIVITY
and unrecognized tags mutate nothing. -/
def mutationSucceeds (b : Board) : ClientMsg → Bool
  | .addTask _ => true
  | .updateTask p => (b.tasks.findIdx? (fun t => t.id == p.id)).isSome
  | .deleteTask _ => true
  | .moveTask p => (b.tasks.findIdx? (fun t => t.id == p.id)).isSome
  | .addComment p => (b.tasks.findIdx? (fun t => t.id == p.taskId)).isSome
  | .updateTeamMember _ => true
  | .userActivity _ => false
  | .unknown _ _ => false

/-- Helper: replaying a list of ADD_TASK messages appends their payloads
to the resident task list. -/
theorem replay_addTask_tasks (ps : List Task) (w : Bool) (clients : List Client)
    (sender : Nat) (st : ServerState) :
    (replay w clients sender st (ps.map ClientMsg.addTask)).mem.tasks
      = st.mem.tasks ++ ps := by
  induction ps generalizing st with
  | nil => simp [replay]
  | cons p ps ih =>
    show (replay w clients sender
        ((handleMessage w clients sender st (.addTask p)).1)
        (ps.map ClientMsg.addTask)).mem.tasks = _
    rw [ih]
    simp [handleMessage, readData, writeData]

/-- C1: replaying any sequence of ADD_TASK messages with pairwise
distinct payload ids on the empty board leaves exactly those payloads as
the task list, in message order. -/
theorem c1_addTask_replay_exact (ps : List Task) (w : Bool)
    (clients : List Client) (sender : Nat) (f : Option Board)
    (_hdistinct : (ps.map Task.id).Nodup) :
    (replay w clients sender ⟨⟨[], []⟩, f⟩ (ps.map ClientMsg.addTask)).mem.tasks
      = ps := by
  rw [replay_addTask_tasks]
  rfl

theorem c1_addTask_replay_exact_witness :
    (replay true [] 0 ⟨⟨[], []⟩, none⟩
        ([⟨"t1", "todo", [], ""⟩, ⟨"t2", "doing", [], ""⟩].map ClientMsg.addTask)).mem.tasks
      = [⟨"t1", "todo", [], ""⟩, ⟨"t2", "doing", [], ""⟩] :=
  c1_addTask_replay_exact _ _ _ _ _ (by decide)

/-- Helper: broadcasting with no exclusion targets exactly the open
clients. -/
theorem broadcast_none (clients : List Client) (m : ServerMsg) :
    broadcast clients none m
      = (clients.filter Client.isOpen).map fun c => (c.cid, m) := by
  simp [broadcast]

/-- Helper: an open client receives an unexcluded broadcast. -/
theorem mem_broadcast_none {c : Client} {clients : List Client}
    (hc : c ∈ clients) (ho : c.isOpen) (m : ServerMsg) :
    (c.cid, m) ∈ broadcast clients none m := by
  rw [broadcast_none]
  exact List.mem_map.mpr ⟨c, List.mem_filter.mpr ⟨hc, ho⟩, rfl⟩

/-- Helper: an excluded-sender broadcast never targets the excluded id. -/
theorem broadcast_excl_not_sender {clients : List Client} {e : Nat}
    {m : ServerMsg} {o : Nat × ServerMsg}
    (ho : o ∈ broadcast clients (some e) m) : o.1 ≠ e ∧ o.2 = m := by
  rcases List.mem_map.mp ho with ⟨c, hc, rfl⟩
  have := (List.mem_filter.mp hc).2
  simp only [Bool.and_eq_true, bne_iff_ne, ne_eq] at this
  exact ⟨this.1, rfl⟩

/-- Helper: an open client other than the excluded one does receive the
excluded broadcast. -/
theorem mem_broadcast_excl {c : Client} {clients : List Client} {e : Nat}
    (hc : c ∈ clients) (ho : c.isOpen) (hne : c.cid ≠ e) (m : ServerMsg) :
    (c.cid, m) ∈ broadcast clients (some e) m := by
  refine List.mem_map.mpr ⟨c, List.mem_filter.mpr ⟨hc, ?_⟩, rfl⟩
  simp [hne, ho]

/-- C3: an UPDATE_TASK whose payload id matches no resident task leaves
the state unchanged, does not persist, and sends nothing. -/
theorem c3_updateTask_miss_noop (w : Bool) (clients : List Client)
    (sender : Nat) (st : ServerState) (p : Task)
    (h : ∀ t ∈ st.mem.tasks, t.id ≠ p.id) :
    handleMessage w clients sender st (.updateTask p) = (st, false, []) := by
  have hf : st.mem.tasks.findIdx? (fun t => t.id == p.id) = none :=
    List.findIdx?_eq_none_iff.mpr (by intro t ht; simpa using h t ht)
  simp [handleMessage, readData, hf]

theorem c3_updateTask_miss_noop_witness :
    handleMessage true [⟨0, true⟩] 0
        ⟨⟨[⟨"a", "todo", [], ""⟩], []⟩, none⟩ (.updateTask ⟨"b", "done", [], ""⟩)
      = (⟨⟨[⟨"a", "todo", [], ""⟩], []⟩, none⟩, false, []) :=
  c3_updateTask_miss_noop _ _ _ _ _ (by decide)

/-- C10: a message whose type tag has no case in the switch leaves the
state unchanged, does not persist, and sends nothing. -/
theorem c10_unknown_tag_noop (w : Bool) (clients : List Client)
    (sender : Nat) (st : ServerState) (tag p : String) :
    handleMessage w clients sender st (.unknown tag p) = (st, false, []) :=
  rfl

/-- C4: DELETE_TASK removes exactly the tasks whose id equals the
payload id, keeps the rest in order, leaves team members alone, and the
TASK_DELETED message goes to the sender and every open client even when
nothing matched. -/
theorem c4_deleteTask_filter_and_broadcast (w : Bool) (clients : List Client)
    (sender : Nat) (st : ServerState) (p : DeletePayload) :
    (∀ t, t ∈ (handleMessage w clients sender st (.deleteTask p)).1.mem.tasks
        ↔ t ∈ st.mem.tasks ∧ t.id ≠ p.id)
    ∧ (handleMessage w clients sender st (.deleteTask p)).1.mem.tasks.Sublist
        st.mem.tasks
    ∧ (handleMessage w clients sender st (.deleteTask p)).1.mem.teamMembers
        = st.mem.teamMembers
    ∧ (sender, ServerMsg.taskDeleted p)
        ∈ (handleMessage w clients sender st (.deleteTask p)).2.2
    ∧ (∀ c ∈ clients, c.isOpen →
        (c.cid, ServerMsg.taskDeleted p)
          ∈ (handleMessage w clients sender st (.deleteTask p)).2.2) := by
  refine ⟨?_, ?_, rfl, ?_, ?_⟩
  · intro t
    show t ∈ st.mem.tasks.filter (fun t => t.id != p.id) ↔ _
    simp [List.mem_filter]
  · exact List.filter_sublist _
  · exact List.mem_append.mpr (Or.inr (List.mem_singleton.mpr rfl))
  · intro c hc ho
    exact List.mem_append.mpr (Or.inl (mem_broadcast_none hc ho _))

theorem c4_deleteTask_filter_and_broadcast_witness :
    (⟨"a", "todo", [], ""⟩ : Task)
        ∈ (handleMessage true [⟨0, true⟩, ⟨1, true⟩] 0
            ⟨⟨[⟨"a", "todo", [], ""⟩, ⟨"x", "done", [], ""⟩], []⟩, none⟩
            (.deleteTask ⟨"x", ""⟩)).1.mem.tasks
    ∧ (1, ServerMsg.taskDeleted ⟨"x", ""⟩)
        ∈ (handleMessage true [⟨0, true⟩, ⟨1, true⟩] 0
            ⟨⟨[⟨"a", "todo", [], ""⟩, ⟨"x", "done", [], ""⟩], []⟩, none⟩
            (.deleteTask ⟨"x", ""⟩)).2.2 :=
  ⟨((c4_deleteTask_filter_and_broadcast true [⟨0, true⟩, ⟨1, true⟩] 0
      ⟨⟨[⟨"a", "todo", [], ""⟩, ⟨"x", "done", [], ""⟩], []⟩, none⟩ ⟨"x", ""⟩).1
        ⟨"a", "todo", [], ""⟩).mpr ⟨by decide, by decide⟩,
   (c4_deleteTask_filter_and_broadcast true [⟨0, true⟩, ⟨1, true⟩] 0
      ⟨⟨[⟨"a", "todo", [], ""⟩, ⟨"x", "done", [], ""⟩], []⟩, none⟩ ⟨"x", ""⟩).2.2.2.2
     ⟨1, true⟩ (by decide) (by decide)⟩

/-- C7: USER_ACTIVITY mutates nothing, persists nothing, sends the
activity to every open client other than the sender, and sends nothing
at all to the sender. -/
theorem c7_userActivity_excludes_sender (w : Bool) (clients : List Client)
    (sender : Nat) (st : ServerState) (p : String) :
    (handleMessage w clients sender st (.userActivity p)).1 = st
    ∧ (handleMessage w clients sender st (.userActivity p)).2.1 = false
    ∧ (∀ o ∈ (handleMessage w clients sender st (.userActivity p)).2.2,
        o.1 ≠ sender ∧ o.2 = ServerMsg.userActivity p)
    ∧ (∀ c ∈ clients, c.isOpen → c.cid ≠ sender →
        (c.cid, ServerMsg.userActivity p)
          ∈ (handleMessage w clients sender st (.userActivity p)).2.2) := by
  refine ⟨rfl, rfl, ?_, ?_⟩
  · intro o ho
    exact broadcast_excl_not_sender ho
  · intro c hc hopen hne
    exact mem_broadcast_excl hc hopen hne _

theorem c7_userActivity_excludes_sender_witness :
    ((1, ServerMsg.userActivity "typing")
        ∈ (handleMessage true [⟨0, true⟩, ⟨1, true⟩] 0
            ⟨⟨[], []⟩, none⟩ (.userActivity "typing")).2.2)
    ∧ ((0, ServerMsg.userActivity "typing")
        ∈ (handleMessage true [⟨0, true⟩, ⟨1, true⟩] 0
            ⟨⟨[], []⟩, none⟩ (.userActivity "typing")).2.2 → False) :=
  ⟨(c7_userActivity_excludes_sender true [⟨0, true⟩, ⟨1, true⟩] 0
      ⟨⟨[], []⟩, none⟩ "typing").2.2.2 ⟨1, true⟩ (by decide) (by decide)
    (by decide),
   fun h =>
    ((c7_userActivity_excludes_sender true [⟨0, true⟩, ⟨1, true⟩] 0
        ⟨⟨[], []⟩, none⟩ "typing").2.2.1 _ h).1 rfl⟩

/-- Helper: writing an element back over itself is the identity. -/
theorem set_self_of_getElem? {α : Type _} :
    ∀ (l : List α) (i : Nat) (a : α), l[i]? = some a → l.set i a = l := by
  intro l
  induction l with
  | nil => intro i a h; simp at h
  | cons x xs ih =>
    intro i a h
    cases i with
    | zero => simp_all
    | succ n =>
      simp only [List.getElem?_cons_succ] at h
      simp [ih n a h]

/-- C5: when some resident task carries the payload id, MOVE_TASK
rewrites exactly the first such task, changing only its status field;
every other index and the team-member list are untouched. -/
theorem c5_moveTask_status_frame (w : Bool) (clients : List Client)
    (sender : Nat) (st : ServerState) (p : MovePayload)
    (h : ∃ t ∈ st.mem.tasks, t.id = p.id) :
    ∃ i t, st.mem.tasks[i]? = some t ∧ t.id = p.id
      ∧ (handleMessage w clients sender st (.moveTask p)).1.mem.tasks
          = st.mem.tasks.set i { t with status := p.status }
      ∧ (handleMessage w clients sender st (.moveTask p)).1.mem.tasks[i]?
          = some { t with status := p.status }
      ∧ (∀ j, j ≠ i →
          (handleMessage w clients sender st (.moveTask p)).1.mem.tasks[j]?
            = st.mem.tasks[j]?)
      ∧ (handleMessage w clients sender st (.moveTask p)).1.mem.teamMembers
          = st.mem.teamMembers := by
  cases hfi : st.mem.tasks.findIdx? (fun t => t.id == p.id) with
  | none =>
    exfalso
    rcases h with ⟨t, ht, hid⟩
    have := List.findIdx?_eq_none_iff.mp hfi t ht
    simp [hid] at this
  | some i =>
    rcases List.findIdx?_eq_some_iff_getElem.mp hfi with ⟨hi, hpi, _⟩
    have hmod : modifyAt st.mem.tasks i (fun t => { t with status := p.status })
        = st.mem.tasks.set i { st.mem.tasks[i] with status := p.status } := by
      simp [modifyAt, List.getElem?_eq_getElem hi]
    have hstep : (handleMessage w clients sender st (.moveTask p)).1.mem
        = { st.mem with
            tasks := st.mem.tasks.set i { st.mem.tasks[i] with status := p.status } } := by
      simp [handleMessage, readData, hfi, writeData, hmod]
    refine ⟨i, st.mem.tasks[i], List.getElem?_eq_getElem hi, by simpa using hpi,
      ?_, ?_, ?_, ?_⟩
    · rw [hstep]
    · rw [hstep]
      exact List.getElem?_set_self hi
    · intro j hj
      rw [hstep]
      exact List.getElem?_set_ne (by omega)
    · rw [hstep]

theorem c5_moveTask_status_frame_witness :
    ∃ i t, ([⟨"a", "todo", ["c1"], "r"⟩, ⟨"b", "todo", [], ""⟩] : List Task)[i]?
        = some t ∧ t.id = "b"
      ∧ (handleMessage true [⟨0, true⟩] 0
            ⟨⟨[⟨"a", "todo", ["c1"], "r"⟩, ⟨"b", "todo", [], ""⟩], []⟩, none⟩
            (.moveTask ⟨"b", "done"⟩)).1.mem.tasks
          = ([⟨"a", "todo", ["c1"], "r"⟩, ⟨"b", "todo", [], ""⟩] : List Task).set i
              { t with status := "done" }
      ∧ (handleMessage true [⟨0, true⟩] 0
            ⟨⟨[⟨"a", "todo", ["c1"], "r"⟩, ⟨"b", "todo", [], ""⟩], []⟩, none⟩
            (.moveTask ⟨"b", "done"⟩)).1.mem.tasks[i]?
          = some { t with status := "done" }
      ∧ (∀ j, j ≠ i →
          (handleMessage true [⟨0, true⟩] 0
              ⟨⟨[⟨"a", "todo", ["c1"], "r"⟩, ⟨"b", "todo", [], ""⟩], []⟩, none⟩
              (.moveTask ⟨"b", "done"⟩)).1.mem.tasks[j]?
            = ([⟨"a", "todo", ["c1"], "r"⟩, ⟨"b", "todo", [], ""⟩] : List Task)[j]?)
      ∧ (handleMessage true [⟨0, true⟩] 0
            ⟨⟨[⟨"a", "todo", ["c1"], "r"⟩, ⟨"b", "todo", [], ""⟩], []⟩, none⟩
            (.moveTask ⟨"b", "done"⟩)).1.mem.teamMembers = [] :=
  c5_moveTask_status_frame true [⟨0, true⟩] 0
    ⟨⟨[⟨"a", "todo", ["c1"], "r"⟩, ⟨"b", "todo", [], ""⟩], []⟩, none⟩
    ⟨"b", "done"⟩ ⟨⟨"b", "todo", [], ""⟩, by decide, rfl⟩

/-- Helper: after an upsert, the first member carrying the upserted name
sits at an index where writing the payload again is the identity. -/
theorem upsertMember_findIdx_set (l : List TeamMember) (p : TeamMember) :
    ∃ i, (upsertMember l p).findIdx? (fun m => m.name == p.name) = some i
      ∧ (upsertMember l p).set i p = upsertMember l p := by
  cases hfi : l.findIdx? (fun m => m.name == p.name) with
  | none =>
    have hu : upsertMember l p = l ++ [p] := by simp [upsertMember, hfi]
    refine ⟨l.length, ?_, ?_⟩
    · rw [hu]
      apply List.findIdx?_eq_some_iff_getElem.mpr
      refine ⟨by simp, ?_, ?_⟩
      · rw [List.getElem_append_right (Nat.le_refl _)]
        simp
      · intro j hj
        rw [List.getElem_append_left hj]
        exact List.findIdx?_eq_none_iff.mp hfi _ (List.getElem_mem hj) ▸ by
          simp [List.findIdx?_eq_none_iff.mp hfi _ (List.getElem_mem hj)]
    · rw [hu]
      simp [List.set_append]
  | some i =>
    rcases List.findIdx?_eq_some_iff_getElem.mp hfi with ⟨hi, hpi, hlt⟩
    have hu : upsertMember l p = l.set i p := by simp [upsertMember, hfi]
    refine ⟨i, ?_, ?_⟩
    · rw [hu]
      apply List.findIdx?_eq_some_iff_getElem.mpr
      refine ⟨by simpa using hi, ?_, ?_⟩
      · rw [List.getElem_set_self]
        simp
      · intro j hj
        rw [List.getElem_set_ne (by omega)]
        exact hlt j hj
    · rw [hu, List.set_set]

/-- Helper: upserting the same payload twice is the same as once. -/
theorem upsertMember_idem (l : List TeamMember) (p : TeamMember) :
    upsertMember (upsertMember l p) p = upsertMember l p := by
  obtain ⟨i, hfi, hset⟩ := upsertMember_findIdx_set l p
  generalize hL : upsertMember l p = L at hfi hset ⊢
  calc upsertMember L p = L.set i p := by simp [upsertMember, hfi]
    _ = L := hset

/-- Helper: when no member carries the name, the upsert appends. -/
theorem upsertMember_absent {l : List TeamMember} {p : TeamMember}
    (h : ∀ m ∈ l, m.name ≠ p.name) : upsertMember l p = l ++ [p] := by
  have hfi : l.findIdx? (fun m => m.name == p.name) = none :=
    List.findIdx?_eq_none_iff.mpr (by intro m hm; simpa using h m hm)
  simp [upsertMember, hfi]

/-- Helper: when some member carries the name, the upsert replaces the
first such member in place. -/
theorem upsertMember_present {l : List TeamMember} {p : TeamMember}
    (h : ∃ m ∈ l, m.name = p.name) :
    ∃ i m, l[i]? = some m ∧ m.name = p.name ∧ upsertMember l p = l.set i p := by
  cases hfi : l.findIdx? (fun m => m.name == p.name) with
  | none =>
    exfalso
    rcases h with ⟨m, hm, hname⟩
    have := List.findIdx?_eq_none_iff.mp hfi m hm
    simp [hname] at this
  | some i =>
    rcases List.findIdx?_eq_some_iff_getElem.mp hfi with ⟨hi, hpi, _⟩
    exact ⟨i, l[i], List.getElem?_eq_getElem hi, by simpa using hpi,
      by simp [upsertMember, hfi]⟩

/-- Helper: the upsert never introduces a duplicate member name. -/
theorem upsertMember_names_nodup {l : List TeamMember} {p : TeamMember}
    (h : (l.map TeamMember.name).Nodup) :
    ((upsertMember l p).map TeamMember.name).Nodup := by
  cases hfi : l.findIdx? (fun m => m.name == p.name) with
  | none =>
    have habs : ∀ m ∈ l, m.name ≠ p.name := by
      intro m hm
      have := List.findIdx?_eq_none_iff.mp hfi m hm
      simpa using this
    rw [upsertMember_absent habs, List.map_append, List.nodup_append]
    refine ⟨h, List.nodup_singleton _, ?_⟩
    intro a ha hb
    rcases List.mem_map.mp ha with ⟨m, hm, rfl⟩
    exact habs m hm (List.mem_singleton.mp hb)
  | some i =>
    rcases List.findIdx?_eq_some_iff_getElem.mp hfi with ⟨hi, hpi, _⟩
    have hu : upsertMember l p = l.set i p := by simp [upsertMember, hfi]
    have hnames : (l.map TeamMember.name)[i]? = some p.name := by
      rw [List.getElem?_map, List.getElem?_eq_getElem hi]
      simpa using hpi
    rw [hu, List.map_set, set_self_of_getElem? _ _ _ hnames]
    exact h

/-- C6: UPDATE_TEAM_MEMBER is an idempotent upsert keyed by name:
applying it twice with the same payload gives the same team-member list
as once; a matching member is replaced in place, an absent one is
appended; distinct member names stay distinct. -/
theorem c6_updateTeamMember_upsert_idempotent (w : Bool) (clients : List Client)
    (sender : Nat) (st : ServerState) (p : TeamMember) :
    (handleMessage w clients sender
        (handleMessage w clients sender st (.updateTeamMember p)).1
        (.updateTeamMember p)).1.mem.teamMembers
      = (handleMessage w clients sender st (.updateTeamMember p)).1.mem.teamMembers
    ∧ ((∀ m ∈ st.mem.teamMembers, m.name ≠ p.name) →
        (handleMessage w clients sender st (.updateTeamMember p)).1.mem.teamMembers
          = st.mem.teamMembers ++ [p])
    ∧ ((∃ m ∈ st.mem.teamMembers, m.name = p.name) →
        ∃ i m, st.mem.teamMembers[i]? = some m ∧ m.name = p.name
          ∧ (handleMessage w clients sender st (.updateTeamMember p)).1.mem.teamMembers
              = st.mem.teamMembers.set i p)
    ∧ ((st.mem.teamMembers.map TeamMember.name).Nodup →
        ((handleMessage w clients sender st (.updateTeamMember p)).1.mem.teamMembers.map
            TeamMember.name).Nodup) := by
  refine ⟨upsertMember_idem _ _, ?_, ?_, ?_⟩
  · intro h
    exact upsertMember_absent h
  · intro h
    exact upsertMember_present h
  · intro h
    exact upsertMember_names_nodup h

theorem c6_updateTeamMember_upsert_idempotent_witness :
    (handleMessage true [⟨0, true⟩] 0
        (handleMessage true [⟨0, true⟩] 0
          ⟨⟨[], [⟨"bob", "dev"⟩]⟩, none⟩ (.updateTeamMember ⟨"ann", "pm"⟩)).1
        (.updateTeamMember ⟨"ann", "pm"⟩)).1.mem.teamMembers
      = (handleMessage true [⟨0, true⟩] 0
          ⟨⟨[], [⟨"bob", "dev"⟩]⟩, none⟩
          (.updateTeamMember ⟨"ann", "pm"⟩)).1.mem.teamMembers
    ∧ (handleMessage true [⟨0, true⟩] 0
          ⟨⟨[], [⟨"bob", "dev"⟩]⟩, none⟩
          (.updateTeamMember ⟨"ann", "pm"⟩)).1.mem.teamMembers
        = [⟨"bob", "dev"⟩, ⟨"ann", "pm"⟩]
    ∧ ((handleMessage true [⟨0, true⟩] 0
          ⟨⟨[], [⟨"bob", "dev"⟩]⟩, none⟩
          (.updateTeamMember ⟨"ann", "pm"⟩)).1.mem.teamMembers.map
        TeamMember.name).Nodup :=
  ⟨(c6_updateTeamMember_upsert_idempotent true [⟨0, true⟩] 0
      ⟨⟨[], [⟨"bob", "dev"⟩]⟩, none⟩ ⟨"ann", "pm"⟩).1,
   (c6_updateTeamMember_upsert_idempotent true [⟨0, true⟩] 0
      ⟨⟨[], [⟨"bob", "dev"⟩]⟩, none⟩ ⟨"ann", "pm"⟩).2.1 (by decide),
   (c6_updateTeamMember_upsert_idempotent true [⟨0, true⟩] 0
      ⟨⟨[], [⟨"bob", "dev"⟩]⟩, none⟩ ⟨"ann", "pm"⟩).2.2.2 (by decide)⟩

/-- Helper: an in-place update that preserves a projection preserves the
projected list. -/
theorem map_modifyAt {α β : Type _} (g : α → β) (f : α → α) (l : List α)
    (i : Nat) (hf : ∀ a, g (f a) = g a) :
    (modifyAt l i f).map g = l.map g := by
  unfold modifyAt
  cases h : l[i]? with
  | none => rfl
  | some a =>
    have hg : (l.map g)[i]? = some (g a) := by
      rw [List.getElem?_map, h]
      rfl
    simp only [List.map_set, hf]
    rw [set_self_of_getElem? _ _ _ hg]

/-- C2 counterexample: the handler accepts an ADD_TASK whose payload
reuses a resident task id, so starting from a board with distinct ids a
single supported message can break the uniqueness invariant. -/
theorem c2_counterexample_addTask_duplicate_id :
    idsNodup (⟨[⟨"a", "todo", [], ""⟩], []⟩ : Board)
    ∧ ¬ idsNodup (handleMessage true [] 0
        ⟨⟨[⟨"a", "todo", [], ""⟩], []⟩, none⟩
        (.addTask ⟨"a", "doing", [], ""⟩)).1.mem := by
  decide

/-- C2 amended: task-id uniqueness is preserved by every supported
message, provided any ADD_TASK payload carries an id not already
resident (the handler itself never checks this). -/
theorem c2_amended_id_uniqueness_preserved (w : Bool) (clients : List Client)
    (sender : Nat) (st : ServerState) (m : ClientMsg)
    (h1 : idsNodup st.mem)
    (h2 : ∀ p, m = ClientMsg.addTask p → p.id ∉ st.mem.tasks.map Task.id) :
    idsNodup (handleMessage w clients sender st m).1.mem := by
  cases m with
  | addTask p =>
    have hp := h2 p rfl
    show ((st.mem.tasks ++ [p]).map Task.id).Nodup
    rw [List.map_append, List.nodup_append]
    refine ⟨h1, List.nodup_singleton _, ?_⟩
    intro a ha hb
    exact hp (List.mem_singleton.mp hb ▸ ha)
  | updateTask p =>
    cases hfi : st.mem.tasks.findIdx? (fun t => t.id == p.id) with
    | none => simpa [handleMessage, readData, hfi] using h1
    | some i =>
      rcases List.findIdx?_eq_some_iff_getElem.mp hfi with ⟨hi, hpi, _⟩
      have hstep : (handleMessage w clients sender st (.updateTask p)).1.mem.tasks
          = st.mem.tasks.set i p := by
        simp [handleMessage, readData, hfi, writeData]
      show ((handleMessage w clients sender st (.updateTask p)).1.mem.tasks.map
        Task.id).Nodup
      rw [hstep, List.map_set]
      have hg : (st.mem.tasks.map Task.id)[i]? = some p.id := by
        rw [List.getElem?_map, List.getElem?_eq_getElem hi]
        simpa using hpi
      rw [set_self_of_getElem? _ _ _ hg]
      exact h1
  | deleteTask p =>
    show ((st.mem.tasks.filter fun t => t.id != p.id).map Task.id).Nodup
    exact List.Nodup.sublist ((List.filter_sublist _).map Task.id) h1
  | moveTask p =>
    cases hfi : st.mem.tasks.findIdx? (fun t => t.id == p.id) with
    | none => simpa [handleMessage, readData, hfi] using h1
    | some i =>
      have hstep : (handleMessage w clients sender st (.moveTask p)).1.mem.tasks
          = modifyAt st.mem.tasks i fun t => { t with status := p.status } := by
        simp [handleMessage, readData, hfi, writeData]
      show ((handleMessage w clients sender st (.moveTask p)).1.mem.tasks.map
        Task.id).Nodup
      rw [hstep, map_modifyAt Task.id
        (fun t => { t with status := p.status }) st.mem.tasks i fun a => rfl]
      exact h1
  | addComment p =>
    cases hfi : st.mem.tasks.findIdx? (fun t => t.id == p.taskId) with
    | none => simpa [handleMessage, readData, hfi] using h1
    | some i =>
      have hstep : (handleMessage w clients sender st (.addComment p)).1.mem.tasks
          = modifyAt st.mem.tasks i
              fun t => { t with comments := t.comments ++ [p.comment] } := by
        simp [handleMessage, readData, hfi, writeData]
      show ((handleMessage w clients sender st (.addComment p)).1.mem.tasks.map
        Task.id).Nodup
      rw [hstep, map_modifyAt Task.id
        (fun t => { t with comments := t.comments ++ [p.comment] })
        st.mem.tasks i fun a => rfl]
      exact h1
  | updateTeamMember p => exact h1
  | userActivity p => exact h1
  | unknown tag p => exact h1

theorem c2_amended_id_uniqueness_preserved_witness :
    idsNodup (handleMessage true [⟨0, true⟩] 0
        ⟨⟨[⟨"a", "todo", [], ""⟩], []⟩, none⟩
        (.addTask ⟨"b", "todo", [], ""⟩)).1.mem :=
  c2_amended_id_uniqueness_preserved true [⟨0, true⟩] 0
    ⟨⟨[⟨"a", "todo", [], ""⟩], []⟩, none⟩ (.addTask ⟨"b", "todo", [], ""⟩)
    (by decide) (by intro q hq; cases hq; decide)

/-- Helper: when the registry holds exactly one (open) entry for the
sender, an unexcluded broadcast targets the sender exactly once. -/
theorem broadcast_countP_sender (clients : List Client) (sender : Nat)
    (m : ServerMsg)
    (hs : clients.filter (fun c => c.cid == sender) = [⟨sender, true⟩]) :
    (broadcast clients none m).countP (fun o => o.1 == sender) = 1 := by
  rw [broadcast_none, List.countP_map]
  have hcomp : ((fun (o : Nat × ServerMsg) => o.1 == sender)
      ∘ fun c : Client => (c.cid, m)) = fun c : Client => c.cid == sender := rfl
  rw [hcomp, List.countP_eq_length_filter, List.filter_filter]
  have hpred : (fun (c : Client) => (c.cid == sender) && c.isOpen)
      = fun c : Client => c.isOpen && (c.cid == sender) := by
    funext c
    exact Bool.and_comm _ _
  rw [hpred, ← List.filter_filter, hs]
  rfl

/-- Helper: the common shape of a successful mutation's outbound
traffic: a broadcast to every open client followed by the direct echo to
the sender. -/
theorem outputs_shape_spec (clients : List Client) (sender : Nat)
    (evt : ServerMsg) (outs : List (Nat × ServerMsg))
    (houts : outs = broadcast clients none evt ++ [(sender, evt)])
    (hs : clients.filter (fun c => c.cid == sender) = [⟨sender, true⟩]) :
    outs = broadcast clients none evt ++ [(sender, evt)]
    ∧ (∀ c ∈ clients, c.isOpen → (c.cid, evt) ∈ outs)
    ∧ outs.countP (fun o => o.1 == sender) = 2
    ∧ (∀ o ∈ outs, o.2 = evt) := by
  subst houts
  refine ⟨rfl, ?_, ?_, ?_⟩
  · intro c hc ho
    exact List.mem_append.mpr (Or.inl (mem_broadcast_none hc ho _))
  · rw [List.countP_append, broadcast_countP_sender clients sender evt hs]
    simp
  · intro o ho
    rcases List.mem_append.mp ho with h | h
    · rw [broadcast_none] at h
      rcases List.mem_map.mp h with ⟨c, _, rfl⟩
      rfl
    · rw [List.mem_singleton.mp h]

/-- C8: every successful mutation other than USER_ACTIVITY produces one
event broadcast to all open clients plus a second identical direct send
to the sender, so a (uniquely registered, open) sender receives the
identical event exactly twice and every other open client receives it. -/
theorem c8_success_broadcast_echo_twice (w : Bool) (clients : List Client)
    (sender : Nat) (st : ServerState) (m : ClientMsg)
    (hm : mutationSucceeds st.mem m = true)
    (hs : clients.filter (fun c => c.cid == sender) = [⟨sender, true⟩]) :
    ∃ evt, (handleMessage w clients sender st m).2.2
        = broadcast clients none evt ++ [(sender, evt)]
      ∧ (∀ c ∈ clients, c.isOpen →
          (c.cid, evt) ∈ (handleMessage w clients sender st m).2.2)
      ∧ (handleMessage w clients sender st m).2.2.countP
          (fun o => o.1 == sender) = 2
      ∧ (∀ o ∈ (handleMessage w clients sender st m).2.2, o.2 = evt) := by
  cases m with
  | addTask p =>
    exact ⟨.taskAdded p, outputs_shape_spec clients sender _ _ rfl hs⟩
  | updateTask p =>
    cases hfi : st.mem.tasks.findIdx? (fun t => t.id == p.id) with
    | none => rw [mutationSucceeds, hfi] at hm; simp at hm
    | some i =>
      have houts : (handleMessage w clients sender st (.updateTask p)).2.2
          = broadcast clients none (.taskUpdated p) ++ [(sender, .taskUpdated p)] := by
        simp [handleMessage, readData, hfi]
      exact ⟨.taskUpdated p, outputs_shape_spec clients sender _ _ houts hs⟩
  | deleteTask p =>
    exact ⟨.taskDeleted p, outputs_shape_spec clients sender _ _ rfl hs⟩
  | moveTask p =>
    cases hfi : st.mem.tasks.findIdx? (fun t => t.id == p.id) with
    | none => rw [mutationSucceeds, hfi] at hm; simp at hm
    | some i =>
      have houts : (handleMessage w clients sender st (.moveTask p)).2.2
          = broadcast clients none (.taskMoved p) ++ [(sender, .taskMoved p)] := by
        simp [handleMessage, readData, hfi]
      exact ⟨.taskMoved p, outputs_shape_spec clients sender _ _ houts hs⟩
  | addComment p =>
    cases hfi : st.mem.tasks.findIdx? (fun t => t.id == p.taskId) with
    | none => rw [mutationSucceeds, hfi] at hm; simp at hm
    | some i =>
      have houts : (handleMessage w clients sender st (.addComment p)).2.2
          = broadcast clients none (.commentAdded p) ++ [(sender, .commentAdded p)] := by
        simp [handleMessage, readData, hfi]
      exact ⟨.commentAdded p, outputs_shape_spec clients sender _ _ houts hs⟩
  | updateTeamMember p =>
    exact ⟨.teamUpdated (upsertMember st.mem.teamMembers p),
      outputs_shape_spec clients sender _ _ rfl hs⟩
  | userActivity p => rw [mutationSucceeds] at hm; simp at hm
  | unknown tag p => rw [mutationSucceeds] at hm; simp at hm

theorem c8_success_broadcast_echo_twice_witness :
    ∃ evt, (handleMessage true [⟨0, true⟩, ⟨1, true⟩] 0
          ⟨⟨[], []⟩, none⟩ (.addTask ⟨"t1", "todo", [], ""⟩)).2.2
        = broadcast [⟨0, true⟩, ⟨1, true⟩] none evt ++ [(0, evt)]
      ∧ (∀ c ∈ ([⟨0, true⟩, ⟨1, true⟩] : List Client), c.isOpen →
          (c.cid, evt) ∈ (handleMessage true [⟨0, true⟩, ⟨1, true⟩] 0
            ⟨⟨[], []⟩, none⟩ (.addTask ⟨"t1", "todo", [], ""⟩)).2.2)
      ∧ (handleMessage true [⟨0, true⟩, ⟨1, true⟩] 0
          ⟨⟨[], []⟩, none⟩ (.addTask ⟨"t1", "todo", [], ""⟩)).2.2.countP
          (fun o => o.1 == 0) = 2
      ∧ (∀ o ∈ (handleMessage true [⟨0, true⟩, ⟨1, true⟩] 0
          ⟨⟨[], []⟩, none⟩ (.addTask ⟨"t1", "todo", [], ""⟩)).2.2, o.2 = evt) :=
  c8_success_broadcast_echo_twice true [⟨0, true⟩, ⟨1, true⟩] 0
    ⟨⟨[], []⟩, none⟩ (.addTask ⟨"t1", "todo", [], ""⟩) (by decide) (by decide)

/-- C9: with an unwritable store, ADD_TASK still updates the in-memory
board (the file snapshot stays stale), still broadcasts TASK_ADDED to
the sender and every open client, and the INIT snapshot sent to a
connection registered afterwards contains the added task. -/
theorem c9_write_failure_memory_authoritative (clients : List Client)
    (sender : Nat) (st : ServerState) (p : Task) :
    (handleMessage false clients sender st (.addTask p)).1.mem.tasks
      = st.mem.tasks ++ [p]
    ∧ (handleMessage false clients sender st (.addTask p)).1.file = st.file
    ∧ (sender, ServerMsg.taskAdded p)
        ∈ (handleMessage false clients sender st (.addTask p)).2.2
    ∧ (∀ c ∈ clients, c.isOpen →
        (c.cid, ServerMsg.taskAdded p)
          ∈ (handleMessage false clients sender st (.addTask p)).2.2)
    ∧ (∃ b, initMessage (handleMessage false clients sender st (.addTask p)).1
          = ServerMsg.init b ∧ p ∈ b.tasks) := by
  refine ⟨rfl, ?_, ?_, ?_, ?_⟩
  · simp [handleMessage, readData, writeData]
  · exact List.mem_append.mpr (Or.inr (List.mem_singleton.mpr rfl))
  · intro c hc ho
    exact List.mem_append.mpr (Or.inl (mem_broadcast_none hc ho _))
  · exact ⟨_, rfl, List.mem_append.mpr (Or.inr (List.mem_singleton.mpr rfl))⟩

theorem c9_write_failure_memory_authoritative_witness :
    (handleMessage false [⟨0, true⟩] 0
        ⟨⟨[⟨"a", "todo", [], ""⟩], []⟩, some ⟨[⟨"a", "todo", [], ""⟩], []⟩⟩
        (.addTask ⟨"t1", "todo", [], ""⟩)).1.mem.tasks
      = [⟨"a", "todo", [], ""⟩, ⟨"t1", "todo", [], ""⟩]
    ∧ (handleMessage false [⟨0, true⟩] 0
        ⟨⟨[⟨"a", "todo", [], ""⟩], []⟩, some ⟨[⟨"a", "todo", [], ""⟩], []⟩⟩
        (.addTask ⟨"t1", "todo", [], ""⟩)).1.file
      = some ⟨[⟨"a", "todo", [], ""⟩], []⟩
    ∧ (0, ServerMsg.taskAdded ⟨"t1", "todo", [], ""⟩)
        ∈ (handleMessage false [⟨0, true⟩] 0
            ⟨⟨[⟨"a", "todo", [], ""⟩], []⟩, some ⟨[⟨"a", "todo", [], ""⟩], []⟩⟩
            (.addTask ⟨"t1", "todo", [], ""⟩)).2.2 :=
  ⟨(c9_write_failure_memory_authoritative [⟨0, true⟩] 0
      ⟨⟨[⟨"a", "todo", [], ""⟩], []⟩, some ⟨[⟨"a", "todo", [], ""⟩], []⟩⟩
      ⟨"t1", "todo", [], ""⟩).1,
   (c9_write_failure_memory_authoritative [⟨0, true⟩] 0
      ⟨⟨[⟨"a", "todo", [], ""⟩], []⟩, some ⟨[⟨"a", "todo", [], ""⟩], []⟩⟩
      ⟨"t1", "todo", [], ""⟩).2.1,
   (c9_write_failure_memory_authoritative [⟨0, true⟩] 0
      ⟨⟨[⟨"a", "todo", [], ""⟩], []⟩, some ⟨[⟨"a", "todo", [], ""⟩], []⟩⟩
      ⟨"t1", "todo", [], ""⟩).2.2.1⟩

end ProductBoard
